import Mathlib

/-!
# Snapshot Gatekeeper — verification of the ingestion-and-grading pipeline

Shallow embedding of the core of `src/App.tsx` (burst-detecting processing
scheduler `processQueue`, ingestion `processDirectory`) and of the EXIF
timestamp extractor `getDateTaken` from `src/services/imageProcessing`
(`src/unnamed/part_001`).

Conventions of the embedding:
* JS numbers holding epoch milliseconds are modelled as `Int`.
* Fallible asynchronous collaborators are modelled as explicit functions
  returning `Option`/`Except`; a `none`/`error` result stands for a rejected
  promise (a thrown exception), carrying the exception's `message` string
  where the source stores it.
* React state (`files`, `processingRef`, `isProcessing`, `dirHandle`) is
  modelled as an explicit `SchedState` record; one invocation of the
  `processQueue` closure is one pure state transition.  `setFiles` callbacks
  run sequentially against the current state, which matches the single
  threaded JS event loop the source relies on.
-/

namespace SnapshotGatekeeper

/-- Processing status of a backlog item (`ProcessStatus` in `src/types`). -/
inductive ProcessStatus where
  | pending
  | processing
  | done
  | error
deriving DecidableEq, Repr

/-- Grading result; the core only depends on presence, not content, so a
single field suffices. -/
structure Evaluation where
  isWorthKeeping : Bool
deriving DecidableEq, Repr, Inhabited

/-- One backlog item (`ImageFile` in `src/types`); `xmpHandle` holds a
reference (modelled as the sidecar file name) to a written sidecar. -/
structure ImageFile where
  id : String
  name : String
  status : ProcessStatus
  evaluation : Option Evaluation := none
  errorMessage : Option String := none
  xmpHandle : Option String := none
deriving DecidableEq, Repr

/-- External collaborators of one scheduling pass.
* `read` models `handle.getFile()` followed by `await getDateTaken(fileObj)`,
  keyed by item id; `none` means the file read threw.
* `resize` models `resizeImage` (payload abstracted to one string);
  `Except.error m` is a rejection with message `m`.
* `gradeGroup` models `evaluateImageGroup` on the prepared
  `(name, payload)` list; on success it yields the keyed response
  (`groupResults[name]`, `none` = entry absent from the response).
* `gradeOne` models `evaluateImage`.
* `saveXMP` models `saveXMPInDirectory` (with `generateXMPContent`
  abstracted away); `none` means the write threw. -/
structure Env where
  read : String → Option Int
  resize : String → Except String String
  gradeGroup : List (String × String) → Except String (String → Option Evaluation)
  gradeOne : String → Except String Evaluation
  saveXMP : String → Option String

/-- The scheduler-visible React state of `App`. -/
structure SchedState where
  files : List ImageFile
  processingRef : Bool
  isProcessing : Bool
  dirHandle : Bool
deriving DecidableEq, Repr

/-- Ephemeral burst candidate (`batchCandidates` entries, src/App.tsx line 55);
the raw `fileObj` handle is folded into `file.id` lookups via `Env`. -/
structure Candidate where
  index : Nat
  file : ImageFile
  timestamp : Int
deriving DecidableEq, Repr

/-- `MAX_BATCH_SIZE` (src/App.tsx line 71). -/
def MAX_BATCH_SIZE : Nat := 4

/-- The look-ahead loop of the burst detector (src/App.tsx lines 73–108).
`rest` is the backlog suffix starting at position `idx`
(`nextFileIndex + lookAhead`), `firstTs`/`prevTs` are the capture times of
the first and of the last added candidate, and `len` is the number of
candidates collected so far.  A `read` failure is the thrown exception of
line 83: the `catch` on line 109 keeps the candidates already pushed, which
is the same as stopping the loop. -/
def lookAheadLoop (read : String → Option Int) :
    List ImageFile → Nat → Int → Int → Nat → List Candidate
  | [], _, _, _, _ => []
  | c :: cs, idx, firstTs, prevTs, len =>
    if len < MAX_BATCH_SIZE then
      if c.status = ProcessStatus.pending then
        match read c.id with
        | none => []
        | some ts =>
          if (ts - prevTs).natAbs < 2000 ∧ (ts - firstTs).natAbs < 4000 then
            { index := idx, file := c, timestamp := ts } ::
              lookAheadLoop read cs (idx + 1) firstTs ts (len + 1)
          else []
      else []
    else []

/-- Burst detection (src/App.tsx lines 54–112): seed the batch with the file
at `startIdx`, then look ahead.  If reading the first file throws, the
`catch` leaves `batchCandidates` empty. -/
def burstDetect (read : String → Option Int) (files : List ImageFile)
    (startIdx : Nat) : List Candidate :=
  match files[startIdx]? with
  | none => []
  | some first =>
    match read first.id with
    | none => []
    | some ts =>
      { index := startIdx, file := first, timestamp := ts } ::
        lookAheadLoop read (files.drop (startIdx + 1)) (startIdx + 1) ts ts 1

/-- `currentFiles.findIndex(f => f.status === 'pending')` (src/App.tsx
line 49), as an `Option` instead of `-1`. -/
def findPendingIdx : List ImageFile → Option Nat
  | [] => none
  | f :: fs =>
    if f.status = ProcessStatus.pending then some 0
    else (findPendingIdx fs).map (· + 1)

/-- One resolved member update of a successful batch (the objects returned
at src/App.tsx lines 153–158). -/
structure Update where
  id : String
  evaluation : Evaluation
  xmpHandle : Option String
deriving DecidableEq, Repr

/-- `Promise.all(batchCandidates.map(resizeImage …))` (src/App.tsx
lines 126–133): one rejection rejects the whole preparation. -/
def prepareGroup (resize : String → Except String String) :
    List Candidate → Except String (List (String × String))
  | [] => Except.ok []
  | c :: cs =>
    match resize c.file.id with
    | Except.error m => Except.error m
    | Except.ok p =>
      match prepareGroup resize cs with
      | Except.error m => Except.error m
      | Except.ok ps => Except.ok ((c.file.name, p) :: ps)

/-- The per-member update builders (src/App.tsx lines 139–161): a member
whose result is absent from the keyed response throws, which rejects the
surrounding `Promise.all`; the best-effort sidecar write is caught and
swallowed (line 150), leaving `xmpHandle` unset. -/
def buildGroupUpdates (env : Env) (dirHandle : Bool)
    (results : String → Option Evaluation) :
    List Candidate → Except String (List Update)
  | [] => Except.ok []
  | c :: cs =>
    match results c.file.name with
    | none => Except.error ("No result for " ++ c.file.name ++ " in group response")
    | some r =>
      match buildGroupUpdates env dirHandle results cs with
      | Except.error m => Except.error m
      | Except.ok us =>
        Except.ok ({ id := c.file.id, evaluation := r,
                     xmpHandle := if dirHandle then env.saveXMP c.file.name else none } :: us)

/-- Group processing (src/App.tsx lines 121–161): prepare, grade the group,
then build the member updates. -/
def processGroup (env : Env) (dirHandle : Bool) (cands : List Candidate) :
    Except String (List Update) :=
  match prepareGroup env.resize cands with
  | Except.error m => Except.error m
  | Except.ok prepared =>
    match env.gradeGroup prepared with
    | Except.error m => Except.error m
    | Except.ok results => buildGroupUpdates env dirHandle results cands

/-- Single processing (src/App.tsx lines 176–186). -/
def processSingle (env : Env) (dirHandle : Bool) (c : Candidate) :
    Except String Update :=
  match env.resize c.file.id with
  | Except.error m => Except.error m
  | Except.ok p =>
    match env.gradeOne p with
    | Except.error m => Except.error m
    | Except.ok ev =>
      Except.ok { id := c.file.id, evaluation := ev,
                  xmpHandle := if dirHandle then env.saveXMP c.file.name else none }

/-- `{ ...next[idx], ...u }` with `status: 'done'` (src/App.tsx line 169 and
lines 189–190): status, evaluation and sidecar reference are overwritten,
everything else (including `errorMessage`) is kept. -/
def mergeUpdate (f : ImageFile) (u : Update) : ImageFile :=
  { f with status := ProcessStatus.done, evaluation := some u.evaluation,
           xmpHandle := u.xmpHandle }

/-- `const idx = next.findIndex(f => f.id === u.id); if (idx !== -1)
next[idx] = { ...next[idx], ...u }` (src/App.tsx lines 167–170): replace the
first file with the update's id. -/
def applyUpdate : List ImageFile → Update → List ImageFile
  | [], _ => []
  | f :: fs, u => if f.id = u.id then mergeUpdate f u :: fs else f :: applyUpdate fs u

/-- `resolvedUpdates.forEach(…)` over the copied array (src/App.tsx
lines 164–173). -/
def applyUpdates (files : List ImageFile) (us : List Update) : List ImageFile :=
  us.foldl applyUpdate files

/-- Marking the batch as processing (src/App.tsx lines 115–118). -/
def markProcessing (files : List ImageFile) (ids : List String) : List ImageFile :=
  files.map fun f =>
    if f.id ∈ ids then { f with status := ProcessStatus.processing } else f

/-- The catch handler of the batch (src/App.tsx lines 194–200). -/
def markError (files : List ImageFile) (ids : List String) (msg : String) :
    List ImageFile :=
  files.map fun f =>
    if f.id ∈ ids then { f with status := ProcessStatus.error, errorMessage := some msg }
    else f

/-- One invocation of `processQueue` (src/App.tsx lines 45–205).  The
returned `Bool` is whether the `finally` block scheduled the 500 ms
follow-up attempt (`setTimeout(processQueue, 500)`); the guard
`processingRef` is set after the pending check and cleared in `finally`, so
it is `false` again in every final state of a pass that ran.  When burst
detection collected nothing, `batchCandidates[0]` is `undefined` and the
single branch throws a `TypeError`, landing in the catch with an empty id
set. -/
def processQueue (env : Env) (s : SchedState) : SchedState × Bool :=
  if s.processingRef || !s.isProcessing then (s, false)
  else
    match findPendingIdx s.files with
    | none => (s, false)
    | some idx =>
      let cands := burstDetect env.read s.files idx
      let ids := cands.map fun c => c.file.id
      let files1 := markProcessing s.files ids
      let files2 :=
        if 1 < cands.length then
          match processGroup env s.dirHandle cands with
          | Except.ok us => applyUpdates files1 us
          | Except.error msg => markError files1 ids msg
        else
          match cands with
          | [c] =>
            match processSingle env s.dirHandle c with
            | Except.ok u => files1.map fun f => if f.id = c.file.id then mergeUpdate f u else f
            | Except.error msg => markError files1 ids msg
          | _ => markError files1 ids "Cannot read properties of undefined"
      ({ s with files := files2, processingRef := false }, true)

/-! ## Ingestion (`processDirectory`, src/App.tsx lines 211–271)

String helpers are embedded over character lists so that they compute by
kernel reduction (`String.toLowerCase`, `endsWith`, `substring` and
`localeCompare` of the source are locale/Unicode refinements of these; for
the ASCII file names the pipeline deals in they coincide, with
`localeCompare` modelled as code-point order). -/

/-- ASCII lower-casing of one character (`toLowerCase`). -/
def lowerChar (c : Char) : Char :=
  if 65 ≤ c.toNat ∧ c.toNat ≤ 90 then Char.ofNat (c.toNat + 32) else c

/-- `name.toLowerCase()`. -/
def toLowerStr (s : String) : String := String.mk (s.data.map lowerChar)

/-- `name.endsWith(suf)`. -/
def strEndsWith (s suf : String) : Bool :=
  s.data.reverse.take suf.data.length == suf.data.reverse

/-- `a.localeCompare(b) ≤ 0`, modelled as code-point order. -/
def charListLe : List Char → List Char → Bool
  | [], _ => true
  | _ :: _, [] => false
  | a :: as, b :: bs =>
    if a.toNat < b.toNat then true
    else if b.toNat < a.toNat then false
    else charListLe as bs

/-- The image-extension filter (src/App.tsx line 237). -/
def imageExt (name : String) : Bool :=
  let n := toLowerStr name
  strEndsWith n ".jpg" || strEndsWith n ".jpeg" || strEndsWith n ".png" ||
    strEndsWith n ".webp"

/-- `entry.name.substring(0, entry.name.lastIndexOf('.'))` (src/App.tsx
lines 228 and 238); a name without a dot yields `""` (JS `substring(0, -1)`). -/
def baseNameChars (cs : List Char) : List Char :=
  match cs.reverse.dropWhile (fun c => c ≠ '.') with
  | [] => []
  | _ :: rest => rest.reverse

/-- Base file name: the name with its extension removed. -/
def baseName (s : String) : String := String.mk (baseNameChars s.data)

/-- Membership test of the `xmpHandles` map built in the first directory
pass (src/App.tsx lines 224–232): the entry whose lower-cased base name is
`key`, last write winning (`Map.set`). -/
def findXmp (entries : List String) (key : String) : Option String :=
  (entries.filter fun e =>
    strEndsWith (toLowerStr e) ".xmp" && toLowerStr (baseName e) == key).getLast?

/-- Construction of one backlog item in the second directory pass
(src/App.tsx lines 238–260): a parsing sidecar pre-populates the grade;
`xmpParse` models `parseXMP`, keyed by the sidecar entry name. -/
def ingestItem (xmpParse : String → Option Evaluation) (entries : List String)
    (name : String) : ImageFile :=
  match findXmp entries (toLowerStr (baseName name)) with
  | none => { id := name, name := name, status := ProcessStatus.pending }
  | some x =>
    match xmpParse x with
    | some ev =>
      { id := name, name := name, status := ProcessStatus.done,
        evaluation := some ev, xmpHandle := some x }
    | none => { id := name, name := name, status := ProcessStatus.pending,
                xmpHandle := some x }

/-- Stable insertion of `sortImageFiles` below. -/
def insertByName (f : ImageFile) : List ImageFile → List ImageFile
  | [] => [f]
  | g :: gs =>
    if charListLe g.name.data f.name.data ∧ g.name ≠ f.name then
      g :: insertByName f gs
    else f :: g :: gs

/-- `imageFiles.sort((a, b) => a.name.localeCompare(b.name))` (src/App.tsx
line 265), modelled as a stable insertion sort by name. -/
def sortImageFiles : List ImageFile → List ImageFile
  | [] => []
  | f :: fs => insertByName f (sortImageFiles fs)

/-- The backlog produced by scanning a directory listing (src/App.tsx
lines 220–265): all file entry names are given in directory iteration
order; directories are out of the model (`entry.kind === 'file'` holds for
every element of `entries`). -/
def ingest (xmpParse : String → Option Evaluation) (entries : List String) :
    List ImageFile :=
  sortImageFiles ((entries.filter fun e => imageExt e).map (ingestItem xmpParse entries))

/-- `processDirectory` as a transition of the scheduler-visible state
(src/App.tsx lines 211–271): the backlog is replaced by the freshly
ingested listing; no field of the single-flight guard is consulted or
changed. -/
def processDirectory (s : SchedState) (xmpParse : String → Option Evaluation)
    (entries : List String) : SchedState :=
  { s with files := ingest xmpParse entries, dirHandle := true }

/-! ## Timestamp extractor (`getDateTaken`, src/unnamed/part_001 lines 52–157)

`DataView` reads are modelled over a byte list; an out-of-range read is the
thrown `RangeError`, reported as `none` and caught by the extractor's
`try`/`catch` (or by a `resolve(file.lastModified)` path).  JS
`new Date(formatted).getTime()` is modelled by the abstract engine function
`jsDate : String → Option Int`, with `none` standing for `NaN`. -/

/-- `view.getUint8(i)`. -/
def getUint8 (b : List Nat) (i : Nat) : Option Nat := b[i]?

/-- `view.getUint16(i, little)`. -/
def getUint16 (b : List Nat) (i : Nat) (little : Bool) : Option Nat :=
  match b[i]?, b[i + 1]? with
  | some x, some y => some (if little then y * 256 + x else x * 256 + y)
  | _, _ => none

/-- `view.getUint32(i, little)`. -/
def getUint32 (b : List Nat) (i : Nat) (little : Bool) : Option Nat :=
  match b[i]?, b[i + 1]?, b[i + 2]?, b[i + 3]? with
  | some b0, some b1, some b2, some b3 =>
    some (if little then ((b3 * 256 + b2) * 256 + b1) * 256 + b0
          else ((b0 * 256 + b1) * 256 + b2) * 256 + b3)
  | _, _, _, _ => none

/-- The 19 `getUint8` reads building `dateString` (src/unnamed/part_001
lines 122–125). -/
def readString19 (b : List Nat) (off : Nat) : Option String :=
  match (List.range 19).mapM (fun j => b[off + j]?) with
  | none => none
  | some bs => some (String.mk (bs.map fun n => Char.ofNat n))

/-- The regex replace `^(\d{4}):(\d{2}):(\d{2})` → `$1/$2/$3`
(src/unnamed/part_001 line 129). -/
def normalizeDate (s : String) : String :=
  match s.data with
  | y1 :: y2 :: y3 :: y4 :: c1 :: m1 :: m2 :: c2 :: d1 :: d2 :: rest =>
    if y1.isDigit ∧ y2.isDigit ∧ y3.isDigit ∧ y4.isDigit ∧ c1 = ':' ∧
        m1.isDigit ∧ m2.isDigit ∧ c2 = ':' ∧ d1.isDigit ∧ d2.isDigit then
      String.mk (y1 :: y2 :: y3 :: y4 :: '/' :: m1 :: m2 :: '/' :: d1 :: d2 :: rest)
    else s
  | _ => s

/-- Result of walking one IFD: the resolved timestamp, a thrown read error
(landing in the outer catch), or completion without a usable
`DateTimeOriginal` (falling through to the marker loop). -/
inductive IfdResult where
  | found (t : Int)
  | err
  | done
deriving DecidableEq, Repr

/-- The entry walk of the first IFD (src/unnamed/part_001 lines 111–137):
12-byte entries; on tag `0x9003` the value offset is resolved relative to
`tiffStart`, 19 bytes are read, normalized and parsed; `NaN` (`jsDate`
`none`) continues the walk. -/
def ifdLoop (jsDate : String → Option Int) (b : List Nat)
    (tiffStart dirStart : Nat) (little : Bool) : Nat → Nat → IfdResult
  | _, 0 => IfdResult.done
  | i, remaining + 1 =>
    let entryOffset := dirStart + 2 + i * 12
    match getUint16 b entryOffset little with
    | none => IfdResult.err
    | some tag =>
      if tag = 0x9003 then
        match getUint32 b (entryOffset + 8) little with
        | none => IfdResult.err
        | some valueOffset =>
          match readString19 b (tiffStart + valueOffset) with
          | none => IfdResult.err
          | some ds =>
            match jsDate (normalizeDate ds) with
            | some t => IfdResult.found t
            | none => ifdLoop jsDate b tiffStart dirStart little (i + 1) remaining
      else ifdLoop jsDate b tiffStart dirStart little (i + 1) remaining

/-- The marker-scanning `while` loop (src/unnamed/part_001 lines 83–147).
`some t` is `resolve(timestamp)`, `none` every `resolve(file.lastModified)`
path — including thrown `DataView` reads caught on line 149.  Each
iteration advances `offset` by at least 2, so `b.length` fuel is more than
enough; exhausted fuel cannot be reached from the initial call. -/
def markerLoop (jsDate : String → Option Int) (b : List Nat) :
    Nat → Nat → Option Int
  | _, 0 => none
  | offset, fuel + 1 =>
    if offset < b.length then
      match getUint16 b offset false with
      | none => none
      | some marker =>
        let offset := offset + 2
        if marker = 0xFFE1 then
          match getUint16 b offset false with
          | none => none
          | some app1Length =>
            match getUint32 b (offset + 2) false with
            | none => none
            | some sig =>
              if sig = 0x45786966 then
                let tiffStart := offset + 8
                match getUint16 b tiffStart false with
                | none => none
                | some bom =>
                  match getUint16 b (tiffStart + 2) (bom = 0x4949) with
                  | none => none
                  | some magic =>
                    if magic ≠ 0x002A then none
                    else
                      match getUint32 b (tiffStart + 4) (bom = 0x4949) with
                      | none => none
                      | some firstIFDOffset =>
                        if firstIFDOffset < 8 then none
                        else
                          let dirStart := tiffStart + firstIFDOffset
                          match getUint16 b dirStart (bom = 0x4949) with
                          | none => none
                          | some entries =>
                            match ifdLoop jsDate b tiffStart dirStart
                                (bom = 0x4949) 0 entries with
                            | IfdResult.found t => some t
                            | IfdResult.err => none
                            | IfdResult.done =>
                              markerLoop jsDate b (offset + app1Length) fuel
              else markerLoop jsDate b (offset + app1Length) fuel
        else if marker &&& 0xFF00 ≠ 0xFF00 then none
        else
          match getUint16 b offset false with
          | none => none
          | some segLen => markerLoop jsDate b (offset + segLen) fuel
    else none

/-- `getDateTaken` (src/unnamed/part_001 lines 52–157): non-JPEG mime types
fall back immediately; only the first 64 KiB are read
(`file.slice(0, 65536)`); a missing SOI marker falls back; the marker scan
either resolves a parsed timestamp or falls back to `lastModified`. -/
def getDateTaken (mimeType : String) (bytes : List Nat) (lastModified : Int)
    (jsDate : String → Option Int) : Int :=
  if mimeType ≠ "image/jpeg" ∧ mimeType ≠ "image/jpg" then lastModified
  else
    let b := bytes.take 65536
    match getUint16 b 0 false with
    | none => lastModified
    | some soi =>
      if soi ≠ 0xFFD8 then lastModified
      else
        match markerLoop jsDate b 2 b.length with
        | some t => t
        | none => lastModified

/-! ## Concrete fixtures used by witnesses and examples -/

/-- A fresh pending backlog item. -/
def mkPending (nm : String) : ImageFile :=
  { id := nm, name := nm, status := ProcessStatus.pending }

/-- The A/B/C/D backlog of the spec's E4 example. -/
def filesABCD : List ImageFile :=
  [mkPending "A", mkPending "B", mkPending "C", mkPending "D"]

/-- Capture times of the E4 example: A=1000, B=1500, C=3200, D=7000. -/
def readABCD : String → Option Int := fun id =>
  if id = "A" then some 1000 else if id = "B" then some 1500
  else if id = "C" then some 3200 else if id = "D" then some 7000 else none

/-! ## Burst grouper lemmas -/

theorem lookAheadLoop_length (read : String → Option Int) :
    ∀ (rest : List ImageFile) (idx : Nat) (firstTs prevTs : Int) (len : Nat),
      (lookAheadLoop read rest idx firstTs prevTs len).length ≤ MAX_BATCH_SIZE - len
  | [], _, _, _, _ => by simp [lookAheadLoop]
  | c :: cs, idx, firstTs, prevTs, len => by
    simp only [lookAheadLoop]
    split
    · split
      · split
        · simp
        · rename_i ts hts
          split
          · have ih := lookAheadLoop_length read cs (idx + 1) firstTs ts (len + 1)
            simp only [List.length_cons]
            omega
          · simp
      · simp
    · simp

theorem lookAheadLoop_pending (read : String → Option Int) :
    ∀ (rest : List ImageFile) (idx : Nat) (firstTs prevTs : Int) (len : Nat),
      ∀ c ∈ lookAheadLoop read rest idx firstTs prevTs len,
        c.file.status = ProcessStatus.pending
  | [], _, _, _, _ => by simp [lookAheadLoop]
  | c :: cs, idx, firstTs, prevTs, len => by
    simp only [lookAheadLoop]
    split
    · split
      · next hp =>
        split
        · simp
        · rename_i ts hts
          split
          · intro x hx
            rcases List.mem_cons.mp hx with h | h
            · subst h; exact hp
            · exact lookAheadLoop_pending read cs (idx + 1) firstTs ts (len + 1) x h
          · simp
      · simp
    · simp

theorem lookAheadLoop_take (read : String → Option Int) :
    ∀ (rest : List ImageFile) (idx : Nat) (firstTs prevTs : Int) (len : Nat),
      (lookAheadLoop read rest idx firstTs prevTs len).map (fun c => c.file) =
        rest.take (lookAheadLoop read rest idx firstTs prevTs len).length
  | [], _, _, _, _ => by simp [lookAheadLoop]
  | c :: cs, idx, firstTs, prevTs, len => by
    simp only [lookAheadLoop]
    split
    · split
      · split
        · simp
        · rename_i ts hts
          split
          · have ih := lookAheadLoop_take read cs (idx + 1) firstTs ts (len + 1)
            simp [ih]
          · simp
      · simp
    · simp

theorem findPendingIdx_spec :
    ∀ (fs : List ImageFile) (i : Nat), findPendingIdx fs = some i →
      ∃ f, fs[i]? = some f ∧ f.status = ProcessStatus.pending
  | [], i, h => by simp [findPendingIdx] at h
  | f :: fs, i, h => by
    simp only [findPendingIdx] at h
    split at h
    · next hp =>
      cases h
      exact ⟨f, by simp, hp⟩
    · rcases Option.map_eq_some'.mp h with ⟨j, hj, hji⟩
      rcases findPendingIdx_spec fs j hj with ⟨g, hg, hgp⟩
      subst hji
      exact ⟨g, by simpa using hg, hgp⟩

theorem burstDetect_length (read : String → Option Int) (fs : List ImageFile)
    (i : Nat) : (burstDetect read fs i).length ≤ MAX_BATCH_SIZE := by
  simp only [burstDetect]
  split
  · simp [MAX_BATCH_SIZE]
  · split
    · simp [MAX_BATCH_SIZE]
    · rename_i ts hts
      have h := lookAheadLoop_length read (fs.drop (i + 1)) (i + 1) ts ts 1
      simp only [List.length_cons, MAX_BATCH_SIZE] at h ⊢
      omega

theorem burstDetect_pending (read : String → Option Int) (fs : List ImageFile)
    (i : Nat) (hidx : findPendingIdx fs = some i) :
    ∀ c ∈ burstDetect read fs i, c.file.status = ProcessStatus.pending := by
  rcases findPendingIdx_spec fs i hidx with ⟨f, hf, hfp⟩
  simp only [burstDetect, hf]
  split
  · simp
  · intro c hc
    rcases List.mem_cons.mp hc with h | h
    · subst h; exact hfp
    · exact lookAheadLoop_pending read _ _ _ _ _ c h

theorem burstDetect_take (read : String → Option Int) (fs : List ImageFile)
    (i : Nat) :
    (burstDetect read fs i).map (fun c => c.file) =
      (fs.drop i).take (burstDetect read fs i).length := by
  simp only [burstDetect]
  split
  · simp
  · next first hf =>
    split
    · simp
    · have hdrop : first :: fs.drop (i + 1) = fs.drop i := by
        have hlt : i < fs.length := (List.getElem?_eq_some.mp hf).1
        have := List.getElem_cons_drop fs i hlt
        rw [← this]
        have : fs[i] = first := by
          have := (List.getElem?_eq_some.mp hf).2
          simpa using this
        rw [this]
      rw [← hdrop]
      simp [lookAheadLoop_take]

/-- C1: a contiguous pending candidate examined by the burst grouper is
included and scanning continues if and only if its neighbour delta is
strictly below 2000 ms and its delta to the run's first item is strictly
below 4000 ms; a delta of exactly 0 is accepted; on the E4 example
(A=1000, B=1500, C=3200, D=7000, all pending) the run is exactly A, B, C. -/
theorem C1_burst_inclusion_iff :
    (∀ (read : String → Option Int) (c : ImageFile) (cs : List ImageFile)
        (idx : Nat) (firstTs prevTs ts : Int) (len : Nat),
        len < MAX_BATCH_SIZE → c.status = ProcessStatus.pending →
        read c.id = some ts →
        lookAheadLoop read (c :: cs) idx firstTs prevTs len =
          (if (ts - prevTs).natAbs < 2000 ∧ (ts - firstTs).natAbs < 4000 then
            { index := idx, file := c, timestamp := ts } ::
              lookAheadLoop read cs (idx + 1) firstTs ts (len + 1)
          else [])) ∧
    (∀ (read : String → Option Int) (c : ImageFile) (cs : List ImageFile)
        (idx : Nat) (ts : Int) (len : Nat),
        len < MAX_BATCH_SIZE → c.status = ProcessStatus.pending →
        read c.id = some ts →
        lookAheadLoop read (c :: cs) idx ts ts len =
          { index := idx, file := c, timestamp := ts } ::
            lookAheadLoop read cs (idx + 1) ts ts (len + 1)) ∧
    (burstDetect readABCD filesABCD 0).map (fun c => c.file.name) =
      ["A", "B", "C"] := by
  refine ⟨?_, ?_, by decide⟩
  · intro read c cs idx firstTs prevTs ts len hlen hpend hread
    simp [lookAheadLoop, hlen, hpend, hread]
  · intro read c cs idx ts len hlen hpend hread
    simp [lookAheadLoop, hlen, hpend, hread]

theorem C1_witness :
    lookAheadLoop readABCD [mkPending "B"] 1 1000 1000 1 =
      (if ((1500 : Int) - 1000).natAbs < 2000 ∧
          ((1500 : Int) - 1000).natAbs < 4000 then
        { index := 1, file := mkPending "B", timestamp := 1500 } ::
          lookAheadLoop readABCD [] 2 1000 1500 2
      else []) :=
  C1_burst_inclusion_iff.1 readABCD (mkPending "B") [] 1 1000 1000 1500 1
    (by decide) (by decide) (by decide)

/-- C2: in one scheduling pass the selected run never exceeds
`MAX_BATCH_SIZE = 4` items, contains only pending items, is a contiguous
slice of the backlog starting at the first pending index, and with no
pending item the pass does nothing. -/
theorem C2_run_shape :
    (∀ (read : String → Option Int) (fs : List ImageFile) (i : Nat),
        (burstDetect read fs i).length ≤ MAX_BATCH_SIZE) ∧
    (∀ (read : String → Option Int) (fs : List ImageFile) (i : Nat),
        findPendingIdx fs = some i →
        ∀ c ∈ burstDetect read fs i, c.file.status = ProcessStatus.pending) ∧
    (∀ (read : String → Option Int) (fs : List ImageFile) (i : Nat),
        (burstDetect read fs i).map (fun c => c.file) =
          (fs.drop i).take (burstDetect read fs i).length) ∧
    (∀ (env : Env) (s : SchedState), findPendingIdx s.files = none →
        processQueue env s = (s, false)) := by
  refine ⟨burstDetect_length, burstDetect_pending, burstDetect_take, ?_⟩
  intro env s h
  simp only [processQueue, h]
  split <;> rfl

theorem C2_witness :
    ({ index := 0, file := mkPending "A", timestamp := 1000 } :
        Candidate).file.status = ProcessStatus.pending :=
  C2_run_shape.2.1 readABCD filesABCD 0 (by decide)
    { index := 0, file := mkPending "A", timestamp := 1000 } (by decide)

/-! ## Scheduler guard lemmas -/

theorem markProcessing_nil (fs : List ImageFile) : markProcessing fs [] = fs := by
  simp [markProcessing]

theorem markError_nil (fs : List ImageFile) (msg : String) :
    markError fs [] msg = fs := by
  simp [markError]

/-- C4: a tick arriving while the single-flight guard is set does nothing;
a tick arriving while processing is paused does nothing; the guard is
cleared in the completion handler on every exit path, so a pass entered
with a clear guard always ends with a clear guard, and in particular every
pass that scheduled its follow-up ends with a clear guard. -/
theorem C4_single_flight :
    (∀ (env : Env) (s : SchedState), s.processingRef = true →
        processQueue env s = (s, false)) ∧
    (∀ (env : Env) (s : SchedState), s.isProcessing = false →
        processQueue env s = (s, false)) ∧
    (∀ (env : Env) (s : SchedState), s.processingRef = false →
        (processQueue env s).1.processingRef = false) ∧
    (∀ (env : Env) (s : SchedState), (processQueue env s).2 = true →
        (processQueue env s).1.processingRef = false) := by
  refine ⟨?_, ?_, ?_, ?_⟩
  · intro env s h
    simp [processQueue, h]
  · intro env s h
    simp [processQueue, h]
  · intro env s h
    simp only [processQueue]
    split
    · simpa using h
    · split
      · simpa using h
      · rfl
  · intro env s
    simp only [processQueue]
    split
    · simp
    · split
      · simp
      · intro h
        rfl

def env10 : Env :=
  { read := fun _ => none
    resize := fun i => Except.ok i
    gradeGroup := fun _ => Except.error "grading unavailable"
    gradeOne := fun _ => Except.error "grading unavailable"
    saveXMP := fun _ => none }

def s4 : SchedState :=
  { files := [], processingRef := true, isProcessing := true, dirHandle := false }

theorem C4_witness : processQueue env10 s4 = (s4, false) :=
  C4_single_flight.1 env10 s4 rfl

/-- C10: if reading the first pending item's bytes/timestamp throws, burst
detection collects an empty candidate run, the pass changes no item's state
(the error transition applies to an empty id set), the first pending item
stays pending, and the fixed-delay follow-up attempt is still scheduled. -/
theorem C10_first_read_failure (env : Env) (s : SchedState) (i : Nat)
    (f0 : ImageFile)
    (hguard : s.processingRef = false) (hproc : s.isProcessing = true)
    (hidx : findPendingIdx s.files = some i)
    (hf : s.files[i]? = some f0)
    (hread : env.read f0.id = none) :
    burstDetect env.read s.files i = [] ∧
    (processQueue env s).1.files = s.files ∧
    f0.status = ProcessStatus.pending ∧
    (processQueue env s).2 = true := by
  have hcands : burstDetect env.read s.files i = [] := by
    simp [burstDetect, hf, hread]
  have hp : f0.status = ProcessStatus.pending := by
    rcases findPendingIdx_spec s.files i hidx with ⟨g, hg, hgp⟩
    rw [hf] at hg
    cases hg
    exact hgp
  refine ⟨hcands, ?_, hp, ?_⟩
  · simp only [processQueue, hguard, hproc, hidx, hcands]
    simp [markProcessing_nil, markError_nil]
  · simp only [processQueue, hguard, hproc, hidx, hcands]
    simp

def s10 : SchedState :=
  { files := [mkPending "A"], processingRef := false, isProcessing := true,
    dirHandle := false }

theorem C10_witness :
    burstDetect env10.read s10.files 0 = [] ∧
    (processQueue env10 s10).1.files = s10.files ∧
    (mkPending "A").status = ProcessStatus.pending ∧
    (processQueue env10 s10).2 = true :=
  C10_first_read_failure env10 s10 0 (mkPending "A") rfl rfl (by decide)
    (by decide) rfl

/-! ## All-or-nothing group failure (C3) -/

theorem buildGroupUpdates_error (env : Env) (dir : Bool)
    (results : String → Option Evaluation) :
    ∀ (cands : List Candidate), (∃ c ∈ cands, results c.file.name = none) →
      ∃ m, buildGroupUpdates env dir results cands = Except.error m
  | [], h => by simp at h
  | c :: cs, h => by
    simp only [buildGroupUpdates]
    cases hres : results c.file.name with
    | none => exact ⟨_, rfl⟩
    | some r =>
      rcases h with ⟨c0, hc0, hmiss⟩
      rcases List.mem_cons.mp hc0 with hh | hc0'
      · subst hh
        rw [hres] at hmiss
        cases hmiss
      · rcases buildGroupUpdates_error env dir results cs ⟨c0, hc0', hmiss⟩ with
          ⟨m, hm⟩
        rw [hm]
        exact ⟨m, rfl⟩

theorem markError_status (fs : List ImageFile) (ids : List String) (msg : String) :
    ∀ f ∈ markError fs ids msg, f.id ∈ ids → f.status = ProcessStatus.error := by
  intro f hf hin
  rcases List.mem_map.mp hf with ⟨g, hg, hfg⟩
  subst hfg
  by_cases h : g.id ∈ ids
  · simp [h]
  · simp [h] at hin

/-- C3: in a run of length greater than 1, one member's result missing from
the group grading response (looked up by file name) sends every member of
the batch to `error`, none to `done`. -/
theorem C3_all_or_nothing (env : Env) (s : SchedState) (i : Nat)
    (hguard : s.processingRef = false) (hproc : s.isProcessing = true)
    (hidx : findPendingIdx s.files = some i)
    (hlen : 1 < (burstDetect env.read s.files i).length)
    (ps : List (String × String)) (results : String → Option Evaluation)
    (hprep : prepareGroup env.resize (burstDetect env.read s.files i) =
      Except.ok ps)
    (hgrade : env.gradeGroup ps = Except.ok results)
    (c0 : Candidate) (hc0 : c0 ∈ burstDetect env.read s.files i)
    (hmiss : results c0.file.name = none) :
    ∀ f ∈ (processQueue env s).1.files,
      f.id ∈ (burstDetect env.read s.files i).map (fun c => c.file.id) →
      f.status = ProcessStatus.error ∧ f.status ≠ ProcessStatus.done := by
  rcases buildGroupUpdates_error env s.dirHandle results _ ⟨c0, hc0, hmiss⟩ with
    ⟨m, hm⟩
  have hpg : processGroup env s.dirHandle (burstDetect env.read s.files i) =
      Except.error m := by
    simp only [processGroup, hprep, hgrade, hm]
  have hq : (processQueue env s).1.files =
      markError
        (markProcessing s.files
          ((burstDetect env.read s.files i).map fun c => c.file.id))
        ((burstDetect env.read s.files i).map fun c => c.file.id) m := by
    simp [processQueue, hguard, hproc, hidx, hlen, hpg]
  intro f hf hin
  rw [hq] at hf
  have herr := markError_status _ _ _ f hf hin
  exact ⟨herr, by simp [herr]⟩

def resultsB : String → Option Evaluation := fun n =>
  if n = "A" then some { isWorthKeeping := true } else none

def env3 : Env :=
  { read := fun _ => some 0
    resize := fun i => Except.ok i
    gradeGroup := fun _ => Except.ok resultsB
    gradeOne := fun _ => Except.error "single"
    saveXMP := fun _ => none }

def s3 : SchedState :=
  { files := [mkPending "A", mkPending "B"], processingRef := false,
    isProcessing := true, dirHandle := false }

theorem C3_witness :
    ({ id := "B", name := "B", status := ProcessStatus.error,
       evaluation := none,
       errorMessage := some "No result for B in group response",
       xmpHandle := none } : ImageFile).status = ProcessStatus.error ∧
    ({ id := "B", name := "B", status := ProcessStatus.error,
       evaluation := none,
       errorMessage := some "No result for B in group response",
       xmpHandle := none } : ImageFile).status ≠ ProcessStatus.done :=
  C3_all_or_nothing env3 s3 0 rfl rfl (by decide) (by decide)
    [("A", "A"), ("B", "B")] resultsB rfl rfl
    { index := 1, file := mkPending "B", timestamp := 0 } (by decide) (by decide)
    { id := "B", name := "B", status := ProcessStatus.error,
      evaluation := none,
      errorMessage := some "No result for B in group response",
      xmpHandle := none } (by decide) (by decide)

/-! ## Bulk update application lemmas (C7) -/

theorem mergeUpdate_id (f : ImageFile) (u : Update) :
    (mergeUpdate f u).id = f.id := rfl

theorem applyUpdate_map_id : ∀ (fs : List ImageFile) (u : Update),
    (applyUpdate fs u).map (fun f => f.id) = fs.map (fun f => f.id)
  | [], _ => rfl
  | f :: fs, u => by
    simp only [applyUpdate]
    split
    · simp [mergeUpdate]
    · simp [applyUpdate_map_id fs u]

theorem applyUpdate_mem_of_ne : ∀ (fs : List ImageFile) (u : Update)
    (f : ImageFile), f ∈ applyUpdate fs u → f.id ≠ u.id → f ∈ fs
  | [], u, f, hf, _ => by simp [applyUpdate] at hf
  | g :: fs, u, f, hf, hne => by
    simp only [applyUpdate] at hf
    split at hf
    next hgid =>
      rcases List.mem_cons.mp hf with hh | hh
      · subst hh
        exact absurd (by simp [mergeUpdate, hgid]) hne
      · exact List.mem_cons_of_mem _ hh
    next hgid =>
      rcases List.mem_cons.mp hf with hh | hh
      · subst hh
        exact List.mem_cons_self _ _
      · exact List.mem_cons_of_mem _ (applyUpdate_mem_of_ne fs u f hh hne)

theorem applyUpdate_mem_ne : ∀ (fs : List ImageFile) (u : Update)
    (f : ImageFile), f ∈ fs → f.id ≠ u.id → f ∈ applyUpdate fs u
  | [], _, f, hf, _ => by simp at hf
  | g :: fs, u, f, hf, hne => by
    simp only [applyUpdate]
    split
    next hgid =>
      rcases List.mem_cons.mp hf with hh | hh
      · subst hh
        exact absurd hgid hne
      · exact List.mem_cons_of_mem _ hh
    next hgid =>
      rcases List.mem_cons.mp hf with hh | hh
      · subst hh
        exact List.mem_cons_self _ _
      · exact List.mem_cons_of_mem _ (applyUpdate_mem_ne fs u f hh hne)

theorem applyUpdate_eq : ∀ (fs : List ImageFile) (u : Update) (f0 : ImageFile),
    (fs.map (fun f => f.id)).Nodup → f0 ∈ fs → f0.id = u.id →
    ∀ f ∈ applyUpdate fs u, f.id = u.id → f = mergeUpdate f0 u
  | [], _, f0, _, hf0, _ => by simp at hf0
  | g :: fs, u, f0, hnd, hf0, hid => by
    simp only [List.map_cons, List.nodup_cons] at hnd
    obtain ⟨hgnot, hnd'⟩ := hnd
    simp only [applyUpdate]
    split
    next hgid =>
      have hf0g : f0 = g := by
        rcases List.mem_cons.mp hf0 with hh | hh
        · exact hh
        · exfalso
          apply hgnot
          have hmm : f0.id ∈ List.map (fun f => f.id) fs :=
            List.mem_map_of_mem _ hh
          rwa [hid, ← hgid] at hmm
      intro f hf hfid
      rcases List.mem_cons.mp hf with hh | hh
      · subst hh
        rw [hf0g]
      · exfalso
        apply hgnot
        have hmm : f.id ∈ List.map (fun f => f.id) fs :=
          List.mem_map_of_mem _ hh
        rwa [hfid, ← hgid] at hmm
    next hgid =>
      have hf0fs : f0 ∈ fs := by
        rcases List.mem_cons.mp hf0 with hh | hh
        · subst hh
          exact absurd hid hgid
        · exact hh
      intro f hf hfid
      rcases List.mem_cons.mp hf with hh | hh
      · subst hh
        exact absurd hfid hgid
      · exact applyUpdate_eq fs u f0 hnd' hf0fs hid f hh hfid

theorem applyUpdates_map_id : ∀ (us : List Update) (fs : List ImageFile),
    (applyUpdates fs us).map (fun f => f.id) = fs.map (fun f => f.id)
  | [], _ => rfl
  | u :: us, fs => by
    have h : applyUpdates fs (u :: us) = applyUpdates (applyUpdate fs u) us := rfl
    rw [h, applyUpdates_map_id us (applyUpdate fs u), applyUpdate_map_id]

theorem applyUpdates_mem_of_ne : ∀ (us : List Update) (fs : List ImageFile)
    (x : String), (∀ u ∈ us, u.id ≠ x) →
    ∀ f ∈ applyUpdates fs us, f.id = x → f ∈ fs
  | [], fs, x, _, f, hf, _ => hf
  | u :: us, fs, x, hall, f, hf, hfx => by
    have hf' : f ∈ applyUpdates (applyUpdate fs u) us := hf
    have h1 : f ∈ applyUpdate fs u :=
      applyUpdates_mem_of_ne us (applyUpdate fs u) x
        (fun v hv => hall v (List.mem_cons_of_mem u hv)) f hf' hfx
    exact applyUpdate_mem_of_ne fs u f h1
      (fun h => hall u (List.mem_cons_self u us) (by rw [← h]; exact hfx))

theorem applyUpdates_eq : ∀ (us : List Update) (fs : List ImageFile)
    (u : Update) (f0 : ImageFile),
    (fs.map (fun f => f.id)).Nodup → (us.map (fun v => v.id)).Nodup →
    u ∈ us → f0 ∈ fs → f0.id = u.id →
    ∀ f ∈ applyUpdates fs us, f.id = u.id → f = mergeUpdate f0 u
  | [], _, u, _, _, _, hu, _, _ => by simp at hu
  | v :: us, fs, u, f0, hfs, hus, hu, hf0, hid => by
    simp only [List.map_cons, List.nodup_cons] at hus
    obtain ⟨hvnot, hus'⟩ := hus
    intro f hf hfid
    have hf' : f ∈ applyUpdates (applyUpdate fs v) us := hf
    rcases List.mem_cons.mp hu with hh | hh
    · subst hh
      have hnotin : ∀ w ∈ us, w.id ≠ u.id := by
        intro w hw heq
        exact hvnot (heq ▸ List.mem_map_of_mem (fun x => x.id) hw)
      have h1 : f ∈ applyUpdate fs u :=
        applyUpdates_mem_of_ne us (applyUpdate fs u) u.id hnotin f hf' hfid
      exact applyUpdate_eq fs u f0 hfs hf0 hid f h1 hfid
    · have hne : f0.id ≠ v.id := by
        intro heq
        apply hvnot
        rw [← heq, hid]
        exact List.mem_map_of_mem (fun x => x.id) hh
      have hnd1 : ((applyUpdate fs v).map (fun f => f.id)).Nodup := by
        rw [applyUpdate_map_id]
        exact hfs
      exact applyUpdates_eq us (applyUpdate fs v) u f0 hnd1 hus' hh
        (applyUpdate_mem_ne fs v f0 hf0 hne) hid f hf' hfid

theorem markProcessing_map_id (fs : List ImageFile) (ids : List String) :
    (markProcessing fs ids).map (fun f => f.id) = fs.map (fun f => f.id) := by
  simp only [markProcessing, List.map_map]
  apply List.map_congr_left
  intro f _
  simp only [Function.comp]
  split <;> rfl

theorem burstDetect_ids_nodup (read : String → Option Int)
    (fs : List ImageFile) (i : Nat) (h : (fs.map (fun f => f.id)).Nodup) :
    ((burstDetect read fs i).map (fun c => c.file.id)).Nodup := by
  have h1 : (burstDetect read fs i).map (fun c => c.file.id) =
      ((burstDetect read fs i).map (fun c => c.file)).map (fun f => f.id) := by
    simp [List.map_map, Function.comp]
  rw [h1, burstDetect_take read fs i]
  have hsub : ((fs.drop i).take ((burstDetect read fs i).length)).Sublist fs :=
    (List.take_sublist _ _).trans (List.drop_sublist _ _)
  exact List.Nodup.sublist (hsub.map (fun f => f.id)) h

theorem burstDetect_file_mem (read : String → Option Int)
    (fs : List ImageFile) (i : Nat) :
    ∀ c ∈ burstDetect read fs i, c.file ∈ fs := by
  intro c hc
  have hmem : c.file ∈ (burstDetect read fs i).map (fun c => c.file) :=
    List.mem_map_of_mem _ hc
  rw [burstDetect_take read fs i] at hmem
  exact ((List.take_sublist _ _).trans (List.drop_sublist _ _)).subset hmem

/-- The update a member ends with when the whole group response is present. -/
def expectedUpdate (env : Env) (dir : Bool)
    (results : String → Option Evaluation) (c : Candidate) : Update :=
  { id := c.file.id, evaluation := (results c.file.name).getD default,
    xmpHandle := if dir then env.saveXMP c.file.name else none }

theorem buildGroupUpdates_ok (env : Env) (dir : Bool)
    (results : String → Option Evaluation) :
    ∀ (cands : List Candidate),
      (∀ c ∈ cands, (results c.file.name).isSome) →
      buildGroupUpdates env dir results cands =
        Except.ok (cands.map (expectedUpdate env dir results))
  | [], _ => rfl
  | c :: cs, hall => by
    simp only [buildGroupUpdates]
    have hc := hall c (List.mem_cons_self c cs)
    cases hres : results c.file.name with
    | none =>
      rw [hres] at hc
      simp at hc
    | some r =>
      rw [buildGroupUpdates_ok env dir results cs
        (fun x hx => hall x (List.mem_cons_of_mem c hx))]
      simp [expectedUpdate, hres]

/-- C7: in a successfully graded run, a failed sidecar write is swallowed:
the member still transitions to `done` with its evaluation set and only the
sidecar reference missing (`xmpHandle` is exactly what the write returned),
independently for every member — for group runs and for single runs. -/
theorem C7_sidecar_failure_swallowed :
    (∀ (env : Env) (s : SchedState) (i : Nat)
        (ps : List (String × String)) (results : String → Option Evaluation),
        s.processingRef = false → s.isProcessing = true →
        (s.files.map fun f => f.id).Nodup →
        findPendingIdx s.files = some i →
        1 < (burstDetect env.read s.files i).length →
        prepareGroup env.resize (burstDetect env.read s.files i) = Except.ok ps →
        env.gradeGroup ps = Except.ok results →
        (∀ c ∈ burstDetect env.read s.files i, (results c.file.name).isSome) →
        ∀ c ∈ burstDetect env.read s.files i,
          ∀ f ∈ (processQueue env s).1.files, f.id = c.file.id →
            f.status = ProcessStatus.done ∧
            f.evaluation = some ((results c.file.name).getD default) ∧
            f.xmpHandle = (if s.dirHandle then env.saveXMP c.file.name else none)) ∧
    (∀ (env : Env) (s : SchedState) (i : Nat) (c : Candidate) (u : Update),
        s.processingRef = false → s.isProcessing = true →
        findPendingIdx s.files = some i →
        burstDetect env.read s.files i = [c] →
        processSingle env s.dirHandle c = Except.ok u →
        ∀ f ∈ (processQueue env s).1.files, f.id = c.file.id →
          f.status = ProcessStatus.done ∧
          f.evaluation = some u.evaluation ∧
          f.xmpHandle = (if s.dirHandle then env.saveXMP c.file.name else none)) := by
  constructor
  · intro env s i ps results hguard hproc hnodup hidx hlen hprep hgrade hall
      c hc f hf hfid
    have hbuild := buildGroupUpdates_ok env s.dirHandle results _ hall
    have hq : (processQueue env s).1.files =
        applyUpdates
          (markProcessing s.files
            ((burstDetect env.read s.files i).map fun c => c.file.id))
          ((burstDetect env.read s.files i).map
            (expectedUpdate env s.dirHandle results)) := by
      simp [processQueue, hguard, hproc, hidx, hlen, processGroup, hprep,
        hgrade, hbuild]
    rw [hq] at hf
    have hfile : c.file ∈ s.files := burstDetect_file_mem _ _ _ c hc
    have hf0 :
        (if c.file.id ∈ (burstDetect env.read s.files i).map
            (fun c => c.file.id) then
          { c.file with status := ProcessStatus.processing } else c.file) ∈
          markProcessing s.files
            ((burstDetect env.read s.files i).map fun c => c.file.id) :=
      List.mem_map_of_mem _ hfile
    have hf0id :
        (if c.file.id ∈ (burstDetect env.read s.files i).map
            (fun c => c.file.id) then
          { c.file with status := ProcessStatus.processing } else c.file).id =
          (expectedUpdate env s.dirHandle results c).id := by
      split <;> rfl
    have hndfs : ((markProcessing s.files
        ((burstDetect env.read s.files i).map fun c => c.file.id)).map
          (fun f => f.id)).Nodup := by
      rw [markProcessing_map_id]
      exact hnodup
    have hndus : (((burstDetect env.read s.files i).map
        (expectedUpdate env s.dirHandle results)).map (fun v => v.id)).Nodup := by
      have heq : ((burstDetect env.read s.files i).map
          (expectedUpdate env s.dirHandle results)).map (fun v => v.id) =
          (burstDetect env.read s.files i).map (fun c => c.file.id) := by
        simp [List.map_map, Function.comp, expectedUpdate]
      rw [heq]
      exact burstDetect_ids_nodup env.read s.files i hnodup
    have hmemu : expectedUpdate env s.dirHandle results c ∈
        (burstDetect env.read s.files i).map
          (expectedUpdate env s.dirHandle results) :=
      List.mem_map_of_mem _ hc
    have hfinal := applyUpdates_eq _ _ _ _ hndfs hndus hmemu hf0 hf0id f hf
      (by rw [hfid]; rfl)
    rw [hfinal]
    exact ⟨rfl, rfl, rfl⟩
  · intro env s i c u hguard hproc hidx hsingle hok f hf hfid
    have hx : u.xmpHandle = (if s.dirHandle then env.saveXMP c.file.name
        else none) := by
      simp only [processSingle] at hok
      split at hok
      · cases hok
      · split at hok
        · cases hok
        · cases hok
          rfl
    have hq : (processQueue env s).1.files =
        (markProcessing s.files
          ((burstDetect env.read s.files i).map fun c => c.file.id)).map
          (fun f => if f.id = c.file.id then mergeUpdate f u else f) := by
      simp [processQueue, hguard, hproc, hidx, hsingle, hok]
    rw [hq] at hf
    rcases List.mem_map.mp hf with ⟨g, hg, hfg⟩
    by_cases hgid : g.id = c.file.id
    · rw [← hfg]
      simp only [hgid, if_pos]
      exact ⟨rfl, rfl, by rw [← hx]; rfl⟩
    · rw [← hfg] at hfid
      simp only [hgid, if_neg] at hfid
      exact absurd hfid hgid

def results7 : String → Option Evaluation := fun _ =>
  some { isWorthKeeping := true }

def env7 : Env :=
  { read := fun _ => some 0
    resize := fun i => Except.ok i
    gradeGroup := fun _ => Except.ok results7
    gradeOne := fun _ => Except.error "single"
    saveXMP := fun n => if n = "A" then none else some (n ++ ".xmp") }

def s7 : SchedState :=
  { files := [mkPending "A", mkPending "B"], processingRef := false,
    isProcessing := true, dirHandle := true }

theorem C7_witness :
    ({ id := "A", name := "A", status := ProcessStatus.done,
       evaluation := some { isWorthKeeping := true }, errorMessage := none,
       xmpHandle := none } : ImageFile).status = ProcessStatus.done ∧
    ({ id := "A", name := "A", status := ProcessStatus.done,
       evaluation := some { isWorthKeeping := true }, errorMessage := none,
       xmpHandle := none } : ImageFile).evaluation =
      some { isWorthKeeping := true } ∧
    ({ id := "A", name := "A", status := ProcessStatus.done,
       evaluation := some { isWorthKeeping := true }, errorMessage := none,
       xmpHandle := none } : ImageFile).xmpHandle = none :=
  C7_sidecar_failure_swallowed.1 env7 s7 0 [("A", "A"), ("B", "B")] results7
    rfl rfl (by decide) (by decide) (by decide) rfl rfl (by decide)
    { index := 0, file := mkPending "A", timestamp := 0 } (by decide)
    { id := "A", name := "A", status := ProcessStatus.done,
      evaluation := some { isWorthKeeping := true }, errorMessage := none,
      xmpHandle := none } (by decide) rfl

/-! ## Timestamp extractor lemmas (C5, C6) -/

theorem ifdLoop_found (jsDate : String → Option Int) (b : List Nat)
    (tiffStart dirStart : Nat) (little : Bool) :
    ∀ (remaining i : Nat) (t : Int),
      ifdLoop jsDate b tiffStart dirStart little i remaining =
        IfdResult.found t →
      ∃ s, jsDate s = some t
  | 0, i, t, h => by simp [ifdLoop] at h
  | r + 1, i, t, h => by
    simp only [ifdLoop] at h
    split at h
    · cases h
    · split at h
      · split at h
        · cases h
        · split at h
          · cases h
          · split at h
            · rename_i t0 hjd
              cases h
              exact ⟨_, hjd⟩
            · exact ifdLoop_found jsDate b tiffStart dirStart little r (i + 1) t h
      · exact ifdLoop_found jsDate b tiffStart dirStart little r (i + 1) t h

theorem markerLoop_some (jsDate : String → Option Int) (b : List Nat) :
    ∀ (fuel offset : Nat) (t : Int),
      markerLoop jsDate b offset fuel = some t → ∃ s, jsDate s = some t
  | 0, off, t, h => by simp [markerLoop] at h
  | fuel + 1, off, t, h => by
    simp only [markerLoop] at h
    split at h
    · split at h
      · cases h
      · split at h
        · split at h
          · cases h
          · split at h
            · cases h
            · split at h
              · split at h
                · cases h
                · split at h
                  · cases h
                  · split at h
                    · cases h
                    · split at h
                      · cases h
                      · split at h
                        · cases h
                        · split at h
                          · cases h
                          · split at h
                            · rename_i t0 hfound
                              cases h
                              exact ifdLoop_found jsDate b _ _ _ _ _ _ hfound
                            · cases h
                            · exact markerLoop_some jsDate b fuel _ t h
              · exact markerLoop_some jsDate b fuel _ t h
        · split at h
          · cases h
          · split at h
            · cases h
            · exact markerLoop_some jsDate b fuel _ t h
    · cases h

/-- C5: the extractor never fails outward — non-JPEG mime types, invalid
marker sequences, and structures truncated by the 64 KiB cutoff (a declared
APP1 length running past the buffer) all yield the supplied last-modified
timestamp; in general every run either returns last-modified or a value
successfully parsed from a date string. -/
theorem C5_never_fails_outward :
    (∀ (mime : String) (bytes : List Nat) (lm : Int)
        (jd : String → Option Int),
        mime ≠ "image/jpeg" → mime ≠ "image/jpg" →
        getDateTaken mime bytes lm jd = lm) ∧
    (∀ jd : String → Option Int,
        getDateTaken "image/jpeg"
          [0xFF, 0xD8, 0xFF, 0xE1, 0x40, 0x00, 0x45, 0x78, 0x69, 0x66,
           0x00, 0x00] 999 jd = 999) ∧
    (∀ jd : String → Option Int,
        getDateTaken "image/jpeg" [0xFF, 0xD8, 0x12, 0x34] 999 jd = 999) ∧
    (∀ (bytes : List Nat) (lm : Int) (jd : String → Option Int),
        getDateTaken "image/jpeg" bytes lm jd = lm ∨
        ∃ s t, jd s = some t ∧ getDateTaken "image/jpeg" bytes lm jd = t) := by
  refine ⟨?_, fun jd => rfl, fun jd => rfl, ?_⟩
  · intro mime bytes lm jd h1 h2
    simp [getDateTaken, h1, h2]
  · intro bytes lm jd
    simp only [getDateTaken]
    rw [if_neg (by simp)]
    split
    · exact Or.inl rfl
    · split
      · exact Or.inl rfl
      · split
        · rename_i t hml
          rcases markerLoop_some jd (bytes.take 65536) _ 2 t hml with ⟨s, hs⟩
          exact Or.inr ⟨s, t, hs, rfl⟩
        · exact Or.inl rfl

theorem C5_witness :
    getDateTaken "image/png" [] 42 (fun _ => none) = 42 :=
  C5_never_fails_outward.1 "image/png" [] 42 (fun _ => none) (by decide)
    (by decide)

/-- A JPEG with one valid little-endian Exif APP1 segment whose first IFD
holds a single `DateTimeOriginal` (tag `0x9003`) entry pointing at the
ASCII string `2023:10:25 14:30:00` (at absolute offset 34 = TIFF header
start 12 + value offset 22). -/
def exifBytes : List Nat :=
  [0xFF, 0xD8, 0xFF, 0xE1, 0x00, 0x31, 0x45, 0x78, 0x69, 0x66, 0x00, 0x00,
   0x49, 0x49, 0x2A, 0x00, 0x08, 0x00, 0x00, 0x00,
   0x01, 0x00,
   0x03, 0x90, 0x02, 0x00, 0x14, 0x00, 0x00, 0x00, 0x16, 0x00, 0x00, 0x00,
   50, 48, 50, 51, 58, 49, 48, 58, 50, 53, 32, 49, 52, 58, 51, 48, 58, 48, 48]

/-- The same buffer with the entry's tag changed to `0x9004`: no
`DateTimeOriginal` entry exists. -/
def exifBytesNoTag : List Nat :=
  [0xFF, 0xD8, 0xFF, 0xE1, 0x00, 0x31, 0x45, 0x78, 0x69, 0x66, 0x00, 0x00,
   0x49, 0x49, 0x2A, 0x00, 0x08, 0x00, 0x00, 0x00,
   0x01, 0x00,
   0x04, 0x90, 0x02, 0x00, 0x14, 0x00, 0x00, 0x00, 0x16, 0x00, 0x00, 0x00,
   50, 48, 50, 51, 58, 49, 48, 58, 50, 53, 32, 49, 52, 58, 51, 48, 58, 48, 48]

/-- A JS date engine accepting exactly the slash-normalized form of the
embedded date string. -/
def jsDateGood : String → Option Int := fun s =>
  if s = "2023/10/25 14:30:00" then some 1698238200000 else none

/-- C6: on a valid Exif APP1 segment the extractor walks the first IFD's
12-byte entries, resolves the `0x9003` value offset relative to the TIFF
header start, reads the 19 ASCII bytes `YYYY:MM:DD HH:MM:SS`, normalizes
the date separators to slashes and returns the engine-parsed epoch value;
an invalid calendar value (engine `NaN`) or an absent tag falls back to
last-modified. -/
theorem C6_ifd_walk :
    readString19 exifBytes 34 = some "2023:10:25 14:30:00" ∧
    normalizeDate "2023:10:25 14:30:00" = "2023/10/25 14:30:00" ∧
    getDateTaken "image/jpeg" exifBytes 555 jsDateGood = 1698238200000 ∧
    getDateTaken "image/jpeg" exifBytes 555 (fun _ => none) = 555 ∧
    getDateTaken "image/jpeg" exifBytesNoTag 555 jsDateGood = 555 := by
  exact ⟨by decide, by decide, by decide, by decide, by decide⟩

/-! ## Ingestion lemmas (C8, C9) -/

theorem ingestItem_id (p : String → Option Evaluation) (es : List String)
    (nm : String) : (ingestItem p es nm).id = nm := by
  simp only [ingestItem]
  split
  · rfl
  · split <;> rfl

theorem ingestItem_name (p : String → Option Evaluation) (es : List String)
    (nm : String) : (ingestItem p es nm).name = nm := by
  simp only [ingestItem]
  split
  · rfl
  · split <;> rfl

theorem insertByName_perm (f : ImageFile) : ∀ (l : List ImageFile),
    (insertByName f l).Perm (f :: l)
  | [] => List.Perm.refl _
  | g :: gs => by
    simp only [insertByName]
    split
    · exact ((insertByName_perm f gs).cons g).trans (List.Perm.swap f g gs)
    · exact List.Perm.refl _

theorem sortImageFiles_perm : ∀ (l : List ImageFile),
    (sortImageFiles l).Perm l
  | [] => List.Perm.refl _
  | f :: fs =>
    (insertByName_perm f (sortImageFiles fs)).trans
      ((sortImageFiles_perm fs).cons f)

theorem ingest_names_perm (p : String → Option Evaluation)
    (entries : List String) :
    ((ingest p entries).map (fun f => f.name)).Perm
      (entries.filter fun e => imageExt e) := by
  have h1 := (sortImageFiles_perm ((entries.filter fun e => imageExt e).map
      (ingestItem p entries))).map (fun f => f.name)
  have h2 : ((entries.filter fun e => imageExt e).map
      (ingestItem p entries)).map (fun f => f.name) =
      entries.filter fun e => imageExt e := by
    rw [List.map_map]
    exact List.map_id'' (fun nm => ingestItem_name p entries nm) _
  rw [h2] at h1
  exact h1

theorem ingest_ids_perm (p : String → Option Evaluation)
    (entries : List String) :
    ((ingest p entries).map (fun f => f.id)).Perm
      (entries.filter fun e => imageExt e) := by
  have h1 := (sortImageFiles_perm ((entries.filter fun e => imageExt e).map
      (ingestItem p entries))).map (fun f => f.id)
  have h2 : ((entries.filter fun e => imageExt e).map
      (ingestItem p entries)).map (fun f => f.id) =
      entries.filter fun e => imageExt e := by
    rw [List.map_map]
    exact List.map_id'' (fun nm => ingestItem_id p entries nm) _
  rw [h2] at h1
  exact h1

/-- C8 counterexample: a directory holding `a.jpg` and `a.png` ingests into
a backlog with TWO items of base file name `a` — the claimed
one-item-per-distinct-base-name invariant fails. -/
theorem C8_counterexample :
    (ingest (fun _ => none) ["a.jpg", "a.png"]).countP
        (fun f => baseName f.name == "a") = 2 ∧
    ¬ (ingest (fun _ => none) ["a.jpg", "a.png"]).countP
        (fun f => baseName f.name == "a") = 1 :=
  ⟨by decide, by decide⟩

/-- C8 amended: for every directory listing with distinct entry names, the
ingested backlog holds exactly one item per distinct FULL file name — its
names are a permutation of the image-extension entries and both the names
and the ids are duplicate-free. -/
theorem C8_one_item_per_file_name (p : String → Option Evaluation)
    (entries : List String) (h : entries.Nodup) :
    ((ingest p entries).map (fun f => f.name)).Perm
      (entries.filter fun e => imageExt e) ∧
    ((ingest p entries).map (fun f => f.name)).Nodup ∧
    ((ingest p entries).map (fun f => f.id)).Nodup := by
  refine ⟨ingest_names_perm p entries, ?_, ?_⟩
  · exact (ingest_names_perm p entries).symm.nodup (List.Nodup.filter _ h)
  · exact (ingest_ids_perm p entries).symm.nodup (List.Nodup.filter _ h)

theorem C8_witness :
    ((ingest (fun _ => none) ["a.jpg", "a.png"]).map (fun f => f.name)).Perm
      (["a.jpg", "a.png"].filter fun e => imageExt e) ∧
    ((ingest (fun _ => none) ["a.jpg", "a.png"]).map (fun f => f.name)).Nodup ∧
    ((ingest (fun _ => none) ["a.jpg", "a.png"]).map (fun f => f.id)).Nodup :=
  C8_one_item_per_file_name (fun _ => none) ["a.jpg", "a.png"] (by decide)

def s9 : SchedState :=
  { files := [mkPending "A"], processingRef := true, isProcessing := true,
    dirHandle := true }

/-- C9 counterexample: with the single-flight lock held (`processingRef` is
`true`) and a non-empty backlog, switching folders still discards the
backlog — `processDirectory` never consults the lock. -/
theorem C9_counterexample :
    s9.processingRef = true ∧ s9.files ≠ [] ∧
    (processDirectory s9 (fun _ => none) []).files = [] ∧
    (processDirectory s9 (fun _ => none) []).files ≠ s9.files :=
  ⟨rfl, by decide, rfl, by decide⟩

/-- C9 amended: `processDirectory` replaces the backlog with the freshly
ingested listing unconditionally — even while the single-flight lock is
held — and leaves the lock untouched; no guard refuses the discard. -/
theorem C9_no_guard_on_switch (s : SchedState)
    (p : String → Option Evaluation) (entries : List String) :
    (processDirectory s p entries).files = ingest p entries ∧
    (processDirectory s p entries).processingRef = s.processingRef :=
  ⟨rfl, rfl⟩

end SnapshotGatekeeper
